import Mathlib

/-!
Shallow embedding, in Lean 4, of the GTP-Wrapper repository
(`gtp_wrapper/board.py`, `gtp_wrapper/engine.py`, `gtp_wrapper/katago.py`).

Python strings are embedded as `List Char`; machine text operations
(`str.strip`, `str.upper`, `str.split`, `int(...)`, `str(...)`) are embedded
as executable Lean functions over `List Char` mirroring their behaviour on
the ASCII inputs the library handles (every call site in the repository
checks `isascii` or produces ASCII text).
-/

namespace GtpWrapper

/-- The character list of a string literal (Python `str` as `List Char`). -/
def chars (s : String) : List Char := s.data

/-- Models Python `str.isspace` on single ASCII characters, the whitespace
set stripped by `str.strip()`. -/
def py_isspace (c : Char) : Bool :=
  c == ' ' || c == '\t' || c == '\n' || c == '\x0b' || c == '\x0c' || c == '\r'

/-- Models Python `str.strip()`: drop leading and trailing whitespace. -/
def py_strip (l : List Char) : List Char :=
  ((l.dropWhile py_isspace).reverse.dropWhile py_isspace).reverse

/-- Models Python `str.upper()` on ASCII characters (all call sites first
check `isascii`). -/
def py_upper (c : Char) : Char :=
  if 97 ≤ c.toNat ∧ c.toNat ≤ 122 then Char.ofNat (c.toNat - 32) else c

/-- Models the conjunction `s.isalnum() and s.isascii()` tested one character
at a time: ASCII digits, uppercase letters, lowercase letters. -/
def py_ascii_alnum (c : Char) : Bool :=
  decide ((48 ≤ c.toNat ∧ c.toNat ≤ 57) ∨ (65 ≤ c.toNat ∧ c.toNat ≤ 90) ∨
          (97 ≤ c.toNat ∧ c.toNat ≤ 122))

/-- The character class `[A-HJ-Z]` of the vertex regular expression in
`coord_from_gtp` (`board.py`): uppercase letters excluding `I`. -/
def isGtpLetter (c : Char) : Bool :=
  decide ((65 ≤ c.toNat ∧ c.toNat ≤ 72) ∨ (74 ≤ c.toNat ∧ c.toNat ≤ 90))

/-- The character class `\d` restricted to ASCII (the input was checked
`isascii`): decimal digits `0`-`9`. -/
def isDecDigit (c : Char) : Bool :=
  decide (48 ≤ c.toNat ∧ c.toNat ≤ 57)

/-- Embedding of `board.py` `gtp_ord`: letter to GTP column ordinal,
`ord(c) - ord('A') - (1 if c > 'I' else 0)`. -/
def gtp_ord (c : Char) : Nat :=
  c.toNat - 65 - (if 73 < c.toNat then 1 else 0)

/-- Embedding of `board.py` `gtp_chr`: GTP column ordinal to letter; skips `I`
(`if x >= ord('I') - ord('A'): x += 1`, then `chr(x + ord('A'))`). -/
def gtp_chr (x : Nat) : Char :=
  Char.ofNat ((if 8 ≤ x then x + 1 else x) + 65)

/-- Embedding of `board.py` `ext_gtp_ord`: bijective base-25 decoding of a letter string
to a zero-based column index.  The Python function first uppercases the
string; its `assert`s (nonempty, ASCII, alphabetic) hold at every call site
embedded here. -/
def ext_gtp_ord (s : List Char) : Nat :=
  (s.map py_upper).foldl (fun x c => x * 25 + gtp_ord c + 1) 0 - 1

/-- The loop of `board.py` `ext_gtp_str`, with explicit fuel (the Python
`while x > 0` loop; the quotient strictly decreases, so fuel `x` suffices). -/
def ext_gtp_str_aux : Nat → Nat → List Char
  | 0, _ => []
  | fuel + 1, x =>
    if x = 0 then []
    else if x % 25 = 0 then ext_gtp_str_aux fuel (x / 25 - 1) ++ [gtp_chr 24]
    else ext_gtp_str_aux fuel (x / 25) ++ [gtp_chr (x % 25 - 1)]

/-- Embedding of `board.py` `ext_gtp_str`: bijective base-25 encoding of a zero-based
column index (the function starts from `x + 1`). -/
def ext_gtp_str (x : Nat) : List Char := ext_gtp_str_aux (x + 1) (x + 1)

/-- The digit-emitting loop of Python `str(n)` for a natural number, with
explicit fuel. -/
def nat_to_dec_aux : Nat → Nat → List Char
  | 0, _ => []
  | fuel + 1, n =>
    if n = 0 then []
    else nat_to_dec_aux fuel (n / 10) ++ [Char.ofNat (n % 10 + 48)]

/-- Python `str(n)` for a natural number `n` (decimal representation). -/
def nat_to_dec (n : Nat) : List Char :=
  if n = 0 then chars "0" else nat_to_dec_aux n n

/-- Python `str(i)` for an integer `i` (decimal representation with sign). -/
def int_to_dec (i : Int) : List Char :=
  if i < 0 then '-' :: nat_to_dec i.natAbs else nat_to_dec i.toNat

/-- Python `int(s)` on a nonempty all-digit string: fold of
`acc * 10 + digit`. -/
def dec_to_nat (l : List Char) : Nat :=
  l.foldl (fun a c => a * 10 + (c.toNat - 48)) 0

/-- Models Python `int(s)` on a general token (as used by `katago.py`):
optional surrounding whitespace, optional sign, then a nonempty digit run;
anything else raises `ValueError`, embedded as `none`. -/
def py_int (l : List Char) : Option Int :=
  match py_strip l with
  | '-' :: ds => if ds ≠ [] ∧ ds.all isDecDigit then some (-(dec_to_nat ds : Int)) else none
  | '+' :: ds => if ds ≠ [] ∧ ds.all isDecDigit then some ((dec_to_nat ds : Int)) else none
  | ds => if ds ≠ [] ∧ ds.all isDecDigit then some ((dec_to_nat ds : Int)) else none

/-- Embedding of `board.py` `coord_to_gtp`: `ext_gtp_str(x) + str(y + 1)`.  The row is
an `Int` because Python would happily format a negative row. -/
def coord_to_gtp (x : Nat) (y : Int) : List Char :=
  ext_gtp_str x ++ int_to_dec (y + 1)

/-- Embedding of `board.py` `coord_from_gtp`: reject unless `s.isalnum() and s.isascii()`
(both checked on the original string; `isalnum` is false on the empty
string), uppercase, then match the regular expression `([A-HJ-Z]+)(\d+)`
anchored at the start only — the greedy letter group is the maximal
`[A-HJ-Z]` run (the two character classes are disjoint, so backtracking
never helps), the digit group is the maximal digit run that follows, and
trailing characters are ignored.  `ValueError` is embedded as `none`.
The row result is `int(numbers) - 1`, an `Int` (it is `-1` for row digits
`0`). -/
def coord_from_gtp (s : List Char) : Option (Nat × Int) :=
  if s = [] ∨ ¬ (∀ c ∈ s, py_ascii_alnum c = true) then none
  else if (s.map py_upper).takeWhile isGtpLetter = [] ∨
          ((s.map py_upper).dropWhile isGtpLetter).takeWhile isDecDigit = [] then none
  else some (ext_gtp_ord ((s.map py_upper).takeWhile isGtpLetter),
             (dec_to_nat (((s.map py_upper).dropWhile isGtpLetter).takeWhile isDecDigit) : Int) - 1)

/-- Embedding of `board.py` `Vertex`: a pair of optional coordinates; both absent is the
"pass" vertex. -/
structure Vertex where
  x : Option Nat
  y : Option Int
deriving DecidableEq

/-- The pass vertex `Vertex(x=None, y=None)`. -/
def passVertex : Vertex := ⟨none, none⟩

/-- The string branch of `Vertex.__init__`: the literal `"pass"` gives the
pass vertex, anything else goes through `coord_from_gtp` (whose
`ValueError` propagates, embedded as `none`). -/
def vertex_of_chars (s : List Char) : Option Vertex :=
  if s = chars "pass" then some passVertex
  else (coord_from_gtp s).map fun p => ⟨some p.1, some p.2⟩

/-- Embedding of `board.py` `Vertex.gtp_str`: delegates to `coord_to_gtp(self.x, self.y)`
unconditionally.  When either coordinate is `None` (the pass vertex),
`ext_gtp_str`'s `assert x >= 0` comparison against `None` raises
`TypeError`; that raised error is embedded as `none`. -/
def Vertex.gtp_str : Vertex → Option (List Char)
  | ⟨some x, some y⟩ => some (coord_to_gtp x y)
  | _ => none

/-- The errors the read loop of `engine.py` `__read_stdout` can raise while
classifying a response's first line: `line[0]` on an empty line raises
`IndexError`; a first character that is neither `=` nor `?` raises
`RuntimeError("Expected response start with ...")`. -/
inductive ReadError where
  | emptyFirstLine : ReadError
  | badMarker : Char → ReadError
deriving DecidableEq

/-- Embedding of `engine.py` `GTPEngine.__Command`: the per-command mutable state
(`command` text itself is irrelevant to the reader and omitted). -/
structure CommandState where
  response : List (List Char) := []
  ready : Bool := false
  error : Bool := false
  finished : Bool := false
deriving DecidableEq

/-- One iteration of the inner `while True` loop of `__read_stdout`
(`engine.py`), acting on the active command's state, given the raw line the
child wrote (without its trailing newline).  The code strips the line at
`readline()` and strips it again inside the loop; `empty_line` is tested on
that stripped line *before* the status marker is removed, so on the
ready-transition iteration the append always happens. -/
def read_step (st : CommandState) (raw : List Char) : Except ReadError CommandState :=
  let line := py_strip (py_strip raw)
  if !st.ready then
    match line with
    | [] => .error .emptyFirstLine
    | c :: cs =>
      if c = '=' then
        .ok { st with error := false, ready := true, response := st.response ++ [py_strip cs] }
      else if c = '?' then
        .ok { st with error := true, ready := true, response := st.response ++ [py_strip cs] }
      else .error (.badMarker c)
  else if line = [] then .ok { st with finished := true }
  else .ok { st with response := st.response ++ [py_strip line] }

/-- Outcome of driving one command through the read loop against a finite
list of child output lines. -/
inductive RunResult where
  /-- The terminator (blank line) arrived; the finished command state and
  the unconsumed lines. -/
  | done : CommandState → List (List Char) → RunResult
  /-- The loop raised (protocol violation); the reader thread dies. -/
  | fail : ReadError → RunResult
  /-- The child's lines ran out before the terminator: `readline()` blocks
  forever. -/
  | blocked : CommandState → RunResult
deriving DecidableEq

/-- The inner `while True` loop of `__read_stdout` for a single active
command: read a line, apply `read_step`, stop at `finished` or on a raised
error. -/
def run_command : List (List Char) → CommandState → RunResult
  | [], st => .blocked st
  | raw :: ls, st =>
    match read_step st raw with
    | .error e => .fail e
    | .ok st' => if st'.finished then .done st' ls else run_command ls st'

/-- Outcome of the outer loop of `__read_stdout` over several queued
commands: the `(ok, body)` pairs completed so far in queue order, and how
the loop ended. -/
inductive ReaderResult where
  | done : List (Bool × List (List Char)) → List (List Char) → ReaderResult
  | fail : List (Bool × List (List Char)) → ReadError → ReaderResult
  | blocked : List (Bool × List (List Char)) → CommandState → ReaderResult
deriving DecidableEq

/-- The outer loop of `__read_stdout`: pop `n` queued commands in FIFO order
and feed each one lines until its terminator.  Each completed command is
reported as `(ok, body)` where `ok = not error` (as `send_command`
computes it) and `body` is its `response` list. -/
def run_reader : Nat → List (List Char) → ReaderResult
  | 0, ls => .done [] ls
  | n + 1, ls =>
    match run_command ls {} with
    | .done st rest =>
      match run_reader n rest with
      | .done rs r => .done ((!st.error, st.response) :: rs) r
      | .fail rs e => .fail ((!st.error, st.response) :: rs) e
      | .blocked rs p => .blocked ((!st.error, st.response) :: rs) p
    | .fail e => .fail [] e
    | .blocked st => .blocked [] st

/-- The framing of `engine.py` `__send`: `message.split("#")[0]` (the text
before the first `#`) followed by `.strip()`. -/
def strip_message (msg : List Char) : List Char :=
  py_strip (msg.takeWhile (fun c => c ≠ '#'))

/-- The two synchronous errors of `__send`: `ValueError("Empty message")`
and `RuntimeError("Failed to write to engine stdin")` on a short write. -/
inductive SendError where
  | emptyMessage : SendError
  | shortWrite : SendError
deriving DecidableEq

/-- Observable outcome of one `__send` call: the data handed to
`stdin.write`, the commands appended to the ledger/queue, and the raised
error if any (`none` = returned normally). -/
structure SendOutcome where
  written : List (List Char) := []
  enqueued : List (List Char) := []
  raised : Option SendError := none
deriving DecidableEq

/-- Embedding of `engine.py` `__send`, with the value returned by `stdin.write` (number
of bytes accepted; the command text is ASCII, so bytes = characters) as an
environment parameter.  The empty-message check precedes the write; the
short-write check precedes the enqueue. -/
def send_model (msg : List Char) (accepted : Nat) : SendOutcome :=
  let m := strip_message msg
  if m = [] then { written := [], enqueued := [], raised := some .emptyMessage }
  else
    let line := m ++ ['\n']
    if accepted = line.length then
      { written := [line], enqueued := [m], raised := none }
    else
      { written := [line], enqueued := [], raised := some .shortWrite }

/-- Embedding of `engine.py` `send_command` against a child whose reply is `reply`,
followed by a full consumption of the returned generator (the generator
yields `cmd.response` in index order): `__send` with a fully accepted
write, then the read loop, then `(not cmd.error, cmd.response)`.
`none` embeds a raised error or an exchange that never completes. -/
def send_command (cmd : List Char) (reply : List (List Char)) :
    Option (Bool × List (List Char)) :=
  if strip_message cmd = [] then none
  else
    match run_command reply {} with
    | .done st _ => some (!st.error, st.response)
    | _ => none

/-- The tokenising loop behind Python `str.split()` with no separator:
whitespace runs are separators, no empty fields are produced.  The
accumulator holds the current field reversed. -/
def py_words_aux : List Char → List Char → List (List Char)
  | [], cur => if cur = [] then [] else [cur.reverse]
  | c :: rest, cur =>
    if py_isspace c then
      if cur = [] then py_words_aux rest [] else cur.reverse :: py_words_aux rest []
    else py_words_aux rest (c :: cur)

/-- Python `str.split()` with no separator. -/
def py_words (l : List Char) : List (List Char) := py_words_aux l []

/-- Embedding of `katago.py` `LzAnalyzeMoveInfo`: a `NamedTuple` whose seven fields all
default to `None`.  The three 1/10000-scaled quantities are exact rationals
here (Python stores `float(int(w) / 10000)`). -/
structure LzAnalyzeMoveInfo where
  move : Option Vertex := none
  visits : Option Int := none
  winrate : Option ℚ := none
  prior : Option ℚ := none
  lcb : Option ℚ := none
  order : Option Int := none
  pv : Option (List Vertex) := none
deriving DecidableEq

/-- The inner `while` loop of the `pv` branch of `parse_lz_analyze_info`:
collect vertices until `Vertex(words[i])` raises `ValueError`, returning
them with the unconsumed words. -/
def take_pv : List (List Char) → List Vertex × List (List Char)
  | [] => ([], [])
  | w :: rest =>
    match vertex_of_chars w with
    | none => ([], w :: rest)
    | some v =>
      let p := take_pv rest
      (v :: p.1, p.2)

/-- The `while i < len(words)` loop of `katago.py` `parse_lz_analyze_info`,
with explicit fuel (every iteration consumes at least one word, so fuel
`length + 1` suffices and the fuel-out branch is never reached with the
fuel the wrappers pass).  Consuming a key at the end of the words
(`words[i+1]` out of range, `IndexError`), a `move` value `Vertex(...)`
raising `ValueError`, or an `int(...)` raising `ValueError` all abort the
whole parse: embedded as `none`.  An unrecognized word hits the `else:
break` and returns it together with the record built so far. -/
def parse_info_loop : Nat → List (List Char) → LzAnalyzeMoveInfo →
    Option (List (List Char) × LzAnalyzeMoveInfo)
  | 0, _, _ => none
  | _ + 1, [], acc => some ([], acc)
  | fuel + 1, w :: rest, acc =>
    if w = chars "move" then
      match rest with
      | [] => none
      | v :: r2 =>
        match vertex_of_chars v with
        | none => none
        | some vx => parse_info_loop fuel r2 { acc with move := some vx }
    else if w = chars "visits" then
      match rest with
      | [] => none
      | v :: r2 =>
        match py_int v with
        | none => none
        | some n => parse_info_loop fuel r2 { acc with visits := some n }
    else if w = chars "winrate" then
      match rest with
      | [] => none
      | v :: r2 =>
        match py_int v with
        | none => none
        | some n => parse_info_loop fuel r2 { acc with winrate := some ((n : ℚ) / 10000) }
    else if w = chars "prior" then
      match rest with
      | [] => none
      | v :: r2 =>
        match py_int v with
        | none => none
        | some n => parse_info_loop fuel r2 { acc with prior := some ((n : ℚ) / 10000) }
    else if w = chars "lcb" then
      match rest with
      | [] => none
      | v :: r2 =>
        match py_int v with
        | none => none
        | some n => parse_info_loop fuel r2 { acc with lcb := some ((n : ℚ) / 10000) }
    else if w = chars "order" then
      match rest with
      | [] => none
      | v :: r2 =>
        match py_int v with
        | none => none
        | some n => parse_info_loop fuel r2 { acc with order := some n }
    else if w = chars "pv" then
      let p := take_pv rest
      parse_info_loop fuel p.2 { acc with pv := some p.1 }
    else some (w :: rest, acc)

/-- `katago.py` `parse_lz_analyze_info`: requires the leading word `info`
(`ValueError` otherwise, embedded as `none`), then runs the key loop;
returns the unconsumed words and the built record. -/
def parse_lz_analyze_info (ws : List (List Char)) :
    Option (List (List Char) × LzAnalyzeMoveInfo) :=
  match ws with
  | w :: rest => if w = chars "info" then parse_info_loop (rest.length + 1) rest {} else none
  | [] => none

/-- The `while i < len(words)` loop of `parse_lz_analyze_line`, with
explicit fuel (each iteration consumes at least one word): parse a record
at each `info` word, skip any other word. -/
def parse_line_loop : Nat → List (List Char) → Option (List LzAnalyzeMoveInfo)
  | 0, _ => none
  | _ + 1, [] => some []
  | fuel + 1, w :: rest =>
    if w = chars "info" then
      match parse_lz_analyze_info (w :: rest) with
      | none => none
      | some (rem, inf) =>
        match parse_line_loop fuel rem with
        | none => none
        | some t => some (inf :: t)
    else parse_line_loop fuel rest

/-- `katago.py` `parse_lz_analyze_line`: strip the line, split it into
whitespace-separated words (an empty word list gives `[]`), and collect the
records in the order their `info` markers appear. -/
def parse_lz_analyze_line (line : List Char) : Option (List LzAnalyzeMoveInfo) :=
  let ws := py_words (py_strip line)
  parse_line_loop (ws.length + 1) ws

theorem dropWhile_head_false (p : Char → Bool) (l : List Char) (c : Char)
    (h : (l.dropWhile p).head? = some c) : p c = false := by
  induction l with
  | nil => simp [List.dropWhile] at h
  | cons a t ih =>
    by_cases hp : p a
    · rw [List.dropWhile_cons_of_pos hp] at h
      exact ih h
    · rw [List.dropWhile_cons_of_neg hp] at h
      simp only [List.head?_cons, Option.some.injEq] at h
      rw [← h]
      exact Bool.eq_false_iff.mpr hp

theorem dropWhile_eq_self_of_head (p : Char → Bool) (l : List Char)
    (h : ∀ c, l.head? = some c → p c = false) : l.dropWhile p = l := by
  cases l with
  | nil => rfl
  | cons a t => exact List.dropWhile_cons_of_neg (by simp [h a rfl])

theorem dropWhile_tail_decomp (p : Char → Bool) (l : List Char) :
    ∃ t, t ++ l.dropWhile p = l := by
  induction l with
  | nil => exact ⟨[], rfl⟩
  | cons a t ih =>
    by_cases hp : p a
    · obtain ⟨u, hu⟩ := ih
      exact ⟨a :: u, by simp [List.dropWhile_cons_of_pos hp, hu]⟩
    · exact ⟨[], by simp [List.dropWhile_cons_of_neg hp]⟩

theorem py_strip_head_false (l : List Char) (c : Char)
    (h : (py_strip l).head? = some c) : py_isspace c = false := by
  unfold py_strip at h
  set a := l.dropWhile py_isspace with ha
  set b := a.reverse.dropWhile py_isspace with hb
  have hbne : b ≠ [] := by
    intro hnil
    rw [hnil] at h
    simp at h
  obtain ⟨t, ht⟩ := dropWhile_tail_decomp py_isspace a.reverse
  rw [← hb] at ht
  have h1 : b.reverse.head? = b.getLast? := by
    cases b with
    | nil => rfl
    | cons x xs => rw [List.head?_reverse]
  rw [h1] at h
  have h2 : b.getLast? = a.reverse.getLast? := by
    rw [← ht, List.getLast?_append_of_ne_nil _ hbne]
  rw [h2, List.getLast?_reverse] at h
  exact dropWhile_head_false py_isspace l c h

theorem py_strip_strip (l : List Char) : py_strip (py_strip l) = py_strip l := by
  have h1 : (py_strip l).dropWhile py_isspace = py_strip l :=
    dropWhile_eq_self_of_head _ _ (py_strip_head_false l)
  have h2 : (py_strip l).reverse.dropWhile py_isspace = (py_strip l).reverse := by
    apply dropWhile_eq_self_of_head
    intro c hc
    unfold py_strip at hc
    rw [List.reverse_reverse] at hc
    exact dropWhile_head_false py_isspace _ c hc
  show ((((py_strip l).dropWhile py_isspace).reverse).dropWhile py_isspace).reverse = py_strip l
  rw [h1, h2, List.reverse_reverse]

theorem mem_py_strip {c : Char} {l : List Char} (h : c ∈ py_strip l) : c ∈ l := by
  unfold py_strip at h
  rw [List.mem_reverse] at h
  obtain ⟨t, ht⟩ := dropWhile_tail_decomp py_isspace (l.dropWhile py_isspace).reverse
  have h2 : c ∈ (l.dropWhile py_isspace).reverse := by
    rw [← ht]
    exact List.mem_append_right t h
  rw [List.mem_reverse] at h2
  obtain ⟨u, hu⟩ := dropWhile_tail_decomp py_isspace l
  rw [← hu]
  exact List.mem_append_right u h2

theorem takeWhile_append_eq (p : Char → Bool) (L D : List Char)
    (hL : ∀ c ∈ L, p c = true) (hD : ∀ c, D.head? = some c → p c = false) :
    (L ++ D).takeWhile p = L ∧ (L ++ D).dropWhile p = D := by
  induction L with
  | nil =>
    refine ⟨?_, ?_⟩ <;>
      · cases D with
        | nil => rfl
        | cons a t =>
          simp only [List.nil_append]
          first
          | exact List.takeWhile_cons_of_neg (by simp [hD a rfl])
          | exact List.dropWhile_cons_of_neg (by simp [hD a rfl])
  | cons a t ih =>
    have ha : p a = true := hL a (by simp)
    have htail := ih (fun c hc => hL c (by simp [hc]))
    constructor
    · simp only [List.cons_append, List.takeWhile_cons_of_pos ha, htail.1]
    · simp only [List.cons_append, List.dropWhile_cons_of_pos ha, htail.2]

theorem map_self (f : Char → Char) (l : List Char) (h : ∀ c ∈ l, f c = c) :
    l.map f = l := by
  induction l with
  | nil => rfl
  | cons a t ih =>
    simp only [List.map_cons, h a (by simp), ih (fun c hc => h c (by simp [hc]))]

theorem gtp_chr_props : ∀ n, n < 25 →
    gtp_ord (gtp_chr n) = n ∧ py_upper (gtp_chr n) = gtp_chr n ∧
    isGtpLetter (gtp_chr n) = true ∧ py_ascii_alnum (gtp_chr n) = true ∧
    isDecDigit (gtp_chr n) = false ∧ gtp_chr n ≠ 'I' ∧ gtp_chr n ≠ 'i' := by decide

theorem dec_chr_props : ∀ r, r < 10 →
    (Char.ofNat (r + 48)).toNat - 48 = r ∧ isDecDigit (Char.ofNat (r + 48)) = true ∧
    py_ascii_alnum (Char.ofNat (r + 48)) = true ∧
    py_upper (Char.ofNat (r + 48)) = Char.ofNat (r + 48) ∧
    isGtpLetter (Char.ofNat (r + 48)) = false := by decide

theorem mem_ext_gtp_str_aux (f : Nat) : ∀ x c, c ∈ ext_gtp_str_aux f x →
    ∃ n, n < 25 ∧ c = gtp_chr n := by
  induction f with
  | zero => intro x c h; simp [ext_gtp_str_aux] at h
  | succ f ih =>
    intro x c h
    by_cases hx : x = 0
    · simp [ext_gtp_str_aux, hx] at h
    · by_cases hr : x % 25 = 0
      · simp only [ext_gtp_str_aux, if_neg hx, if_pos hr, List.mem_append,
          List.mem_singleton] at h
        rcases h with h | h
        · exact ih _ c h
        · exact ⟨24, by omega, h⟩
      · simp only [ext_gtp_str_aux, if_neg hx, if_neg hr, List.mem_append,
          List.mem_singleton] at h
        rcases h with h | h
        · exact ih _ c h
        · exact ⟨x % 25 - 1, by omega, h⟩

theorem ext_fold (f : Nat) : ∀ x, x ≤ f →
    (ext_gtp_str_aux f x).foldl (fun a c => a * 25 + gtp_ord c + 1) 0 = x := by
  induction f with
  | zero =>
    intro x hx
    have : x = 0 := by omega
    simp [this, ext_gtp_str_aux]
  | succ f ih =>
    intro x hx
    by_cases hx0 : x = 0
    · simp [hx0, ext_gtp_str_aux]
    · have hdiv : x / 25 < x := Nat.div_lt_self (Nat.pos_of_ne_zero hx0) (by omega)
      have hmod := Nat.div_add_mod x 25
      by_cases hr : x % 25 = 0
      · rw [show ext_gtp_str_aux (f + 1) x
            = ext_gtp_str_aux f (x / 25 - 1) ++ [gtp_chr 24] by
          simp [ext_gtp_str_aux, hx0, hr]]
        rw [List.foldl_append, ih (x / 25 - 1) (by omega)]
        simp only [List.foldl_cons, List.foldl_nil, (gtp_chr_props 24 (by omega)).1]
        omega
      · rw [show ext_gtp_str_aux (f + 1) x
            = ext_gtp_str_aux f (x / 25) ++ [gtp_chr (x % 25 - 1)] by
          simp [ext_gtp_str_aux, hx0, hr]]
        rw [List.foldl_append, ih (x / 25) (by omega)]
        simp only [List.foldl_cons, List.foldl_nil,
          (gtp_chr_props (x % 25 - 1) (by omega)).1]
        omega

theorem ext_gtp_str_mem (x : Nat) {c : Char} (hc : c ∈ ext_gtp_str x) :
    ∃ n, n < 25 ∧ c = gtp_chr n :=
  mem_ext_gtp_str_aux (x + 1) (x + 1) c hc

theorem ext_gtp_ord_ext_gtp_str (x : Nat) : ext_gtp_ord (ext_gtp_str x) = x := by
  unfold ext_gtp_ord
  rw [map_self py_upper _ (fun c hc => ?_)]
  · unfold ext_gtp_str
    rw [ext_fold (x + 1) (x + 1) le_rfl]
    omega
  · obtain ⟨n, hn, rfl⟩ := ext_gtp_str_mem x hc
    exact (gtp_chr_props n hn).2.1

theorem ext_gtp_str_ne_nil (x : Nat) : ext_gtp_str x ≠ [] := by
  unfold ext_gtp_str
  by_cases hr : (x + 1) % 25 = 0 <;>
    simp [ext_gtp_str_aux, hr]

theorem mem_nat_to_dec_aux (f : Nat) : ∀ n c, c ∈ nat_to_dec_aux f n →
    ∃ r, r < 10 ∧ c = Char.ofNat (r + 48) := by
  induction f with
  | zero => intro n c h; simp [nat_to_dec_aux] at h
  | succ f ih =>
    intro n c h
    by_cases hn : n = 0
    · simp [nat_to_dec_aux, hn] at h
    · simp only [nat_to_dec_aux, if_neg hn, List.mem_append, List.mem_singleton] at h
      rcases h with h | h
      · exact ih _ c h
      · exact ⟨n % 10, by omega, h⟩

theorem mem_nat_to_dec (n : Nat) {c : Char} (hc : c ∈ nat_to_dec n) :
    ∃ r, r < 10 ∧ c = Char.ofNat (r + 48) := by
  unfold nat_to_dec at hc
  by_cases hn : n = 0
  · rw [if_pos hn] at hc
    refine ⟨0, by omega, ?_⟩
    simp only [chars, List.mem_singleton] at hc
    rw [hc]
  · rw [if_neg hn] at hc
    exact mem_nat_to_dec_aux n n c hc

theorem dec_fold (f : Nat) : ∀ n, n ≤ f →
    (nat_to_dec_aux f n).foldl (fun a c => a * 10 + (c.toNat - 48)) 0 = n := by
  induction f with
  | zero =>
    intro n hn
    have : n = 0 := by omega
    simp [this, nat_to_dec_aux]
  | succ f ih =>
    intro n hn
    by_cases hn0 : n = 0
    · simp [hn0, nat_to_dec_aux]
    · have hdiv : n / 10 < n := Nat.div_lt_self (Nat.pos_of_ne_zero hn0) (by omega)
      have hmod := Nat.div_add_mod n 10
      rw [show nat_to_dec_aux (f + 1) n
          = nat_to_dec_aux f (n / 10) ++ [Char.ofNat (n % 10 + 48)] by
        simp [nat_to_dec_aux, hn0]]
      rw [List.foldl_append, ih (n / 10) (by omega)]
      simp only [List.foldl_cons, List.foldl_nil, (dec_chr_props (n % 10) (by omega)).1]
      omega

theorem dec_to_nat_nat_to_dec (n : Nat) : dec_to_nat (nat_to_dec n) = n := by
  unfold nat_to_dec dec_to_nat
  by_cases hn : n = 0
  · simp [hn, chars]
  · rw [if_neg hn]
    exact dec_fold n n le_rfl

theorem nat_to_dec_ne_nil (n : Nat) : nat_to_dec n ≠ [] := by
  unfold nat_to_dec
  by_cases hn : n = 0
  · simp [hn, chars]
  · rw [if_neg hn]
    cases n with
    | zero => exact absurd rfl hn
    | succ m =>
      by_cases hr : (m + 1) % 10 = 0 <;> simp [nat_to_dec_aux, hr]

/-- C7.  For every non-negative integer `x < 10000`, decoding the column
encoding of `x` (`ext_gtp_ord` applied to `ext_gtp_str x`) yields `x`, and
the encoded string never contains the letter `I` or `i`. -/
theorem claim_C7 (x : Nat) (h : x < 10000) :
    ext_gtp_ord (ext_gtp_str x) = x ∧ ∀ c ∈ ext_gtp_str x, c ≠ 'I' ∧ c ≠ 'i' := by
  refine ⟨ext_gtp_ord_ext_gtp_str x, fun c hc => ?_⟩
  obtain ⟨n, hn, rfl⟩ := ext_gtp_str_mem x hc
  exact ⟨(gtp_chr_props n hn).2.2.2.2.2.1, (gtp_chr_props n hn).2.2.2.2.2.2⟩

/-- Witness for C7 at the concrete column index 650 (encoded `"AAA"`). -/
theorem claim_C7_witness :
    650 < 10000 ∧ ext_gtp_ord (ext_gtp_str 650) = 650 ∧ 'I' ∉ ext_gtp_str 650 := by
  have h := claim_C7 650 (by omega)
  exact ⟨by omega, h.1, fun hc => (h.2 'I' hc).1 rfl⟩

/-- C9.  The reserved token `"pass"` decodes to the vertex with both
coordinates absent; but re-encoding that vertex does not yield `"pass"`:
`Vertex.gtp_str` unconditionally calls `coord_to_gtp(self.x, self.y)`,
which raises `TypeError` on the `None` coordinates (embedded as `none`).
The spec requires the round-trip, so this records the code's divergence at
that input. -/
theorem claim_C9 :
    vertex_of_chars (chars "pass") = some passVertex ∧
    passVertex.gtp_str = none ∧ passVertex.gtp_str ≠ some (chars "pass") := by
  refine ⟨by decide, rfl, by decide⟩

theorem ext_gtp_str_char_facts (x : Nat) {c : Char} (hc : c ∈ ext_gtp_str x) :
    isGtpLetter c = true ∧ py_upper c = c ∧ py_ascii_alnum c = true ∧
    isDecDigit c = false := by
  obtain ⟨n, hn, rfl⟩ := ext_gtp_str_mem x hc
  exact ⟨(gtp_chr_props n hn).2.2.1, (gtp_chr_props n hn).2.1,
    (gtp_chr_props n hn).2.2.2.1, (gtp_chr_props n hn).2.2.2.2.1⟩

theorem nat_to_dec_char_facts (n : Nat) {c : Char} (hc : c ∈ nat_to_dec n) :
    isDecDigit c = true ∧ py_upper c = c ∧ py_ascii_alnum c = true ∧
    isGtpLetter c = false := by
  obtain ⟨r, hr, rfl⟩ := mem_nat_to_dec n hc
  exact ⟨(dec_chr_props r hr).2.1, (dec_chr_props r hr).2.2.2.1,
    (dec_chr_props r hr).2.2.1, (dec_chr_props r hr).2.2.2.2⟩

/-- C8.  For every pair `(col, row)` with `0 ≤ col ≤ 360` and
`0 ≤ row ≤ 360`, decoding the vertex encoding of `(col, row)`
(`coord_from_gtp` applied to `coord_to_gtp col row`) yields exactly
`(col, row)`. -/
theorem claim_C8 (col row : Nat) (h1 : col ≤ 360) (h2 : row ≤ 360) :
    coord_from_gtp (coord_to_gtp col (row : Int)) = some (col, (row : Int)) := by
  have hdec : int_to_dec ((row : Int) + 1) = nat_to_dec (row + 1) := by
    unfold int_to_dec
    rw [if_neg (by omega)]
    congr 1
  have hc2g : coord_to_gtp col (row : Int) = ext_gtp_str col ++ nat_to_dec (row + 1) := by
    unfold coord_to_gtp
    rw [hdec]
  rw [hc2g]
  have hEne := ext_gtp_str_ne_nil col
  have hDne := nat_to_dec_ne_nil (row + 1)
  have halnum : ∀ c ∈ ext_gtp_str col ++ nat_to_dec (row + 1), py_ascii_alnum c = true := by
    intro c hc
    rcases List.mem_append.mp hc with h | h
    · exact (ext_gtp_str_char_facts col h).2.2.1
    · exact (nat_to_dec_char_facts (row + 1) h).2.2.1
  have hmap : (ext_gtp_str col ++ nat_to_dec (row + 1)).map py_upper
      = ext_gtp_str col ++ nat_to_dec (row + 1) := by
    apply map_self
    intro c hc
    rcases List.mem_append.mp hc with h | h
    · exact (ext_gtp_str_char_facts col h).2.1
    · exact (nat_to_dec_char_facts (row + 1) h).2.1
  have hsplit := takeWhile_append_eq isGtpLetter (ext_gtp_str col) (nat_to_dec (row + 1))
    (fun c hc => (ext_gtp_str_char_facts col hc).1)
    (fun c hc => by
      have hmem : c ∈ nat_to_dec (row + 1) := by
        cases hD : nat_to_dec (row + 1) with
        | nil => rw [hD] at hc; simp at hc
        | cons a t =>
          rw [hD] at hc
          simp only [List.head?_cons, Option.some.injEq] at hc
          rw [← hc]
          exact List.mem_cons_self a t
      exact (nat_to_dec_char_facts (row + 1) hmem).2.2.2)
  have hdigits : (nat_to_dec (row + 1)).takeWhile isDecDigit = nat_to_dec (row + 1) := by
    have := takeWhile_append_eq isDecDigit (nat_to_dec (row + 1)) []
      (fun c hc => (nat_to_dec_char_facts (row + 1) hc).1) (by intro c hc; simp at hc)
    rw [List.append_nil] at this
    exact this.1
  unfold coord_from_gtp
  rw [if_neg (by
    push_neg
    refine ⟨by simp [hEne], halnum⟩)]
  rw [hmap, hsplit.1, hsplit.2, hdigits]
  rw [if_neg (by push_neg; exact ⟨hEne, hDne⟩)]
  rw [ext_gtp_ord_ext_gtp_str, dec_to_nat_nat_to_dec]
  congr 1
  congr 1
  omega

/-- Witness for C8 at the concrete pair `(25, 25)` (vertex `"AA26"`). -/
theorem claim_C8_witness :
    coord_from_gtp (coord_to_gtp 25 (25 : Int)) = some (25, (25 : Int)) :=
  claim_C8 25 25 (by omega) (by omega)

theorem isDecDigit_alnum {c : Char} (h : isDecDigit c = true) :
    py_ascii_alnum c = true := by
  simp only [isDecDigit, decide_eq_true_eq] at h
  simp only [py_ascii_alnum, decide_eq_true_eq]
  omega

theorem isDecDigit_py_upper {c : Char} (h : isDecDigit c = true) : py_upper c = c := by
  simp only [isDecDigit, decide_eq_true_eq] at h
  unfold py_upper
  rw [if_neg (by omega)]

theorem isDecDigit_not_letter {c : Char} (h : isDecDigit c = true) :
    isGtpLetter c = false := by
  simp only [isDecDigit, decide_eq_true_eq] at h
  simp only [isGtpLetter, decide_eq_false_iff_not]
  omega

/-- C10 (implicit).  `coord_from_gtp` does not require the whole string to
be a well-formed vertex: for every ASCII alphanumeric input of the shape
`L ++ d :: R` with `L` a nonempty run of valid letters (`A`-`H`, `J`-`Z`,
any case) and `d` a digit, it decodes the letter run and the maximal digit
run that follows and silently ignores the remaining characters instead of
raising; in particular `"A1B"` decodes to `(0, 0)` without error. -/
theorem claim_C10 (L R : List Char) (d : Char)
    (hL : L ≠ [])
    (hLc : ∀ c ∈ L, py_ascii_alnum c = true ∧ isGtpLetter (py_upper c) = true)
    (hd : isDecDigit d = true)
    (hR : ∀ c ∈ R, py_ascii_alnum c = true) :
    coord_from_gtp (L ++ d :: R) =
      some (ext_gtp_ord (L.map py_upper),
            (dec_to_nat ((d :: R.map py_upper).takeWhile isDecDigit) : Int) - 1) ∧
    coord_from_gtp (chars "A1B") = some (0, (0 : Int)) := by
  refine ⟨?_, by decide⟩
  have halnum : ∀ c ∈ L ++ d :: R, py_ascii_alnum c = true := by
    intro c hc
    rcases List.mem_append.mp hc with h | h
    · exact (hLc c h).1
    · rcases List.mem_cons.mp h with rfl | h
      · exact isDecDigit_alnum hd
      · exact hR c h
  have hmap : (L ++ d :: R).map py_upper = L.map py_upper ++ d :: R.map py_upper := by
    rw [List.map_append, List.map_cons, isDecDigit_py_upper hd]
  have hsplit := takeWhile_append_eq isGtpLetter (L.map py_upper) (d :: R.map py_upper)
    (fun c hc => by
      obtain ⟨a, ha, rfl⟩ := List.mem_map.mp hc
      exact (hLc a ha).2)
    (fun c hc => by
      simp only [List.head?_cons, Option.some.injEq] at hc
      rw [← hc]
      exact isDecDigit_not_letter hd)
  unfold coord_from_gtp
  rw [if_neg (by
    push_neg
    exact ⟨by simp [hL], halnum⟩)]
  rw [hmap, hsplit.1, hsplit.2]
  rw [if_neg (by
    push_neg
    refine ⟨by simp [hL], ?_⟩
    rw [List.takeWhile_cons_of_pos hd]
    simp)]

/-- Witness for C10 at the concrete input `"A1B"`. -/
theorem claim_C10_witness :
    coord_from_gtp (chars "A1B") = some (0, (0 : Int)) :=
  (claim_C10 ['A'] ['B'] '1' (by decide) (by decide) (by decide) (by decide)).2

theorem read_step_start (st : CommandState) (raw : List Char) (c : Char) (cs : List Char)
    (hr : st.ready = false) (h : py_strip raw = c :: cs) (hc : c = '=' ∨ c = '?') :
    read_step st raw = .ok { st with
      error := decide (c = '?'),
      ready := true,
      response := st.response ++ [py_strip cs] } := by
  unfold read_step
  rw [py_strip_strip, h, hr]
  rcases hc with rfl | rfl
  · rfl
  · rfl

theorem read_step_more (st : CommandState) (raw : List Char)
    (hr : st.ready = true) (h : py_strip raw ≠ []) :
    read_step st raw = .ok { st with response := st.response ++ [py_strip raw] } := by
  unfold read_step
  rw [py_strip_strip, hr]
  simp only [Bool.not_true, Bool.false_eq_true, if_false, if_neg h, py_strip_strip]

theorem read_step_last (st : CommandState) (raw : List Char)
    (hr : st.ready = true) (h : py_strip raw = []) :
    read_step st raw = .ok { st with finished := true } := by
  unfold read_step
  rw [py_strip_strip, hr, h]
  rfl

theorem run_command_body (body : List (List Char)) :
    ∀ (t : List Char) (rest : List (List Char)) (st : CommandState),
    st.ready = true → st.finished = false →
    (∀ l ∈ body, py_strip l ≠ []) → py_strip t = [] →
    run_command (body ++ t :: rest) st =
      .done { st with
        finished := true,
        response := st.response ++ body.map py_strip } rest := by
  induction body with
  | nil =>
    intro t rest st hr hf hb ht
    simp only [List.nil_append, run_command, read_step_last st t hr ht]
    simp
  | cons l body ih =>
    intro t rest st hr hf hb ht
    have hl : py_strip l ≠ [] := hb l (by simp)
    simp only [List.cons_append, run_command, read_step_more st l hr hl]
    rw [if_neg (by simpa using hf)]
    simp only [List.append_eq]
    rw [ih t rest { st with response := st.response ++ [py_strip l] } hr
      (by simpa using hf) (fun x hx => hb x (by simp [hx])) ht]
    simp

theorem run_command_full (l0 t : List Char) (c : Char) (cs : List Char)
    (body rest : List (List Char))
    (h0 : py_strip l0 = c :: cs) (hc : c = '=' ∨ c = '?')
    (hb : ∀ l ∈ body, py_strip l ≠ []) (ht : py_strip t = []) :
    run_command (l0 :: (body ++ t :: rest)) {} =
      .done { response := py_strip cs :: body.map py_strip,
              ready := true,
              error := decide (c = '?'),
              finished := true } rest := by
  have hstep := read_step_start {} l0 c cs rfl h0 hc
  simp only [run_command, hstep]
  rw [if_neg (by simp)]
  rw [run_command_body body t rest _ rfl rfl hb ht]
  simp

/-- C1.  A response whose (stripped) first line starts with the success
marker `=` or the failure marker `?` and whose body is terminated by a
blank line is read as `ok = (marker = '=')` with the body lines
marker-stripped and whitespace-trimmed; concretely, `"protocol_version"`
against a child replying `"=2\n\n"` gives `ok = true`, body `["2"]`, and
`"boardsize 0"` against `"? unacceptable size\n\n"` gives `ok = false`,
body `["unacceptable size"]`. -/
theorem claim_C1 (l0 t : List Char) (c : Char) (cs : List Char)
    (body rest : List (List Char))
    (h0 : py_strip l0 = c :: cs) (hc : c = '=' ∨ c = '?')
    (hb : ∀ l ∈ body, py_strip l ≠ []) (ht : py_strip t = []) :
    run_command (l0 :: (body ++ t :: rest)) {} =
      .done { response := py_strip cs :: body.map py_strip,
              ready := true,
              error := decide (c = '?'),
              finished := true } rest ∧
    send_command (chars "protocol_version") [chars "=2", chars ""]
      = some (true, [chars "2"]) ∧
    send_command (chars "boardsize 0") [chars "? unacceptable size", chars ""]
      = some (false, [chars "unacceptable size"]) :=
  ⟨run_command_full l0 t c cs body rest h0 hc hb ht, by decide, by decide⟩

/-- Witness for C1: the `"=2"` / blank-line exchange, fully evaluated. -/
theorem claim_C1_witness :
    run_command [chars "=2", chars ""] {} =
      .done { response := [chars "2"],
              ready := true,
              error := false,
              finished := true } [] := by
  have h := (claim_C1 (chars "=2") (chars "") '=' (chars "2") [] []
    (by decide) (Or.inl rfl) (by simp) (by decide)).1
  simpa using h

/-- C2.  FIFO delivery: for commands answered by well-formed response
blocks sent in order, the reader completes them strictly in that order;
each command's status flag and complete body come from its own block, each
body line delivered exactly once in child emission order, with no line of
a later block assigned to an earlier command.  (Caller-side consumption is
read-only in the code — the generator yields `response` by increasing
index — so consumption order cannot affect this assignment.) -/
theorem claim_C2 (blocks : List (List Char × (List (List Char)) × List Char))
    (rest : List (List Char))
    (h : ∀ b ∈ blocks,
      (∃ c cs, py_strip b.1 = c :: cs ∧ (c = '=' ∨ c = '?')) ∧
      (∀ l ∈ b.2.1, py_strip l ≠ []) ∧ py_strip b.2.2 = []) :
    run_reader blocks.length
        ((blocks.map fun b => b.1 :: (b.2.1 ++ [b.2.2])).flatten ++ rest)
      = .done (blocks.map fun b =>
          (!decide ((py_strip b.1).head? = some '?'),
           py_strip (py_strip b.1).tail :: b.2.1.map py_strip)) rest := by
  induction blocks with
  | nil => simp [run_reader]
  | cons b bs ih =>
    obtain ⟨⟨c, cs, h1, hc⟩, hb, ht⟩ := h b (by simp)
    simp only [List.map_cons, List.flatten_cons, List.length_cons, List.cons_append,
      List.append_assoc, List.singleton_append]
    rw [run_reader]
    rw [run_command_full b.1 b.2.2 c cs b.2.1 _ h1 hc hb ht]
    simp only [List.nil_append]
    rw [ih (fun x hx => h x (by simp [hx]))]
    simp [h1]

/-- Witness for C2: a single `"=2"` exchange. -/
theorem claim_C2_witness :
    run_reader 1 [chars "=2", chars ""] = .done [(true, [chars "2"])] [] :=
  claim_C2 [(chars "=2", [], chars "")] []
    (by
      intro b hb
      simp only [List.mem_singleton] at hb
      subst hb
      exact ⟨⟨'=', chars "2", by decide, Or.inl rfl⟩, by simp, by decide⟩)

/-- C3 (amended).  A response line whose stripped first character is
neither status marker makes the read loop raise (`.fail`, the reader
thread stops, completing no command); however the session does *not* stop
accepting new sends: `__send` consults nothing about the reader, so a
subsequent send still strips, writes and enqueues successfully. -/
theorem claim_C3 (l : List Char) (c : Char) (cs : List Char) (rest : List (List Char))
    (n : Nat) (msg : List Char)
    (h0 : py_strip l = c :: cs) (hc : ¬(c = '=' ∨ c = '?'))
    (hm : strip_message msg ≠ []) :
    run_reader (n + 1) (l :: rest) = .fail [] (.badMarker c) ∧
    send_model msg (strip_message msg ++ ['\n']).length =
      { written := [strip_message msg ++ ['\n']],
        enqueued := [strip_message msg],
        raised := none } := by
  push_neg at hc
  constructor
  · have hstep : read_step {} l = .error (.badMarker c) := by
      unfold read_step
      rw [py_strip_strip, h0]
      simp [hc.1, hc.2]
    rw [run_reader, run_command, hstep]
  · unfold send_model
    rw [if_neg hm, if_pos rfl]

/-- Counterexample for C3 as stated: after the malformed line `"x"` kills
the reader with a protocol error, a subsequent `send` of `"name"` (with
its five-byte line fully accepted) still succeeds — it raises nothing and
enqueues the command — contradicting "subsequent send calls fail". -/
theorem claim_C3_counterexample :
    run_command [chars "x"] {} = .fail (.badMarker 'x') ∧
    run_reader 1 [chars "x"] = .fail [] (.badMarker 'x') ∧
    (send_model (chars "name") 5).raised = none ∧
    (send_model (chars "name") 5).enqueued = [chars "name"] := by decide

/-- Witness for C3 (amended) at the malformed line `"x"` and the
subsequent send `"name"`. -/
theorem claim_C3_witness :
    run_reader 1 [chars "x"] = .fail [] (.badMarker 'x') ∧
    send_model (chars "name") 5 =
      { written := [chars "name" ++ ['\n']],
        enqueued := [chars "name"],
        raised := none } :=
  claim_C3 (chars "x") 'x' [] [] 0 (chars "name") (by decide) (by decide) (by decide)

/-- C4.  Every successful step of the read loop preserves the Command
invariants: the response list only grows (the old list is a prefix of the
new one), `ready` and `finished` only go from `false` to `true`, and the
`error` flag never changes once `ready` is `true`.  (Caller-side reads —
`__wait_ready`, `__wait_finished` and the response generator — only read
these fields, so they preserve the invariant trivially.) -/
theorem claim_C4 (st st' : CommandState) (raw : List Char)
    (h : read_step st raw = .ok st') :
    (∃ tl, st'.response = st.response ++ tl) ∧
    (st.ready = true → st'.ready = true) ∧
    (st.finished = true → st'.finished = true) ∧
    (st.ready = true → st'.error = st.error) := by
  unfold read_step at h
  dsimp only at h
  rw [py_strip_strip] at h
  split at h
  · split at h
    · exact absurd h (by simp)
    · split at h
      · rw [Except.ok.injEq] at h
        subst h
        refine ⟨⟨_, rfl⟩, by simp_all, by simp, by simp_all⟩
      · split at h
        · rw [Except.ok.injEq] at h
          subst h
          refine ⟨⟨_, rfl⟩, by simp_all, by simp, by simp_all⟩
        · exact absurd h (by simp)
  · split at h
    · rw [Except.ok.injEq] at h
      subst h
      exact ⟨⟨[], by simp⟩, by simp, by simp, by simp⟩
    · rw [Except.ok.injEq] at h
      subst h
      exact ⟨⟨_, rfl⟩, by simp, by simp, by simp⟩

/-- Witness for C4: a ready command receiving the body line
`"visits 100"`. -/
theorem claim_C4_witness :
    (∃ tl, [chars "visits 100"] = ([] : List (List Char)) ++ tl) ∧
    (true = true → true = true) ∧
    (false = true → false = true) ∧
    (true = true → false = false) :=
  claim_C4 ⟨[], true, false, false⟩ ⟨[chars "visits 100"], true, false, false⟩
    (chars "visits 100") rfl

/-- C5.  `__send` framing: the transmitted text never contains the comment
character (everything from the first `#` on, and surrounding whitespace,
is stripped); if the stripped text is empty the call raises the
empty-message error writing nothing and enqueuing nothing; otherwise
exactly the stripped text plus one newline is written, and a short write
raises synchronously (enqueuing nothing, with no retry — `send_model` is
the whole call). -/
theorem claim_C5 (msg : List Char) (accepted : Nat) :
    ('#' ∉ strip_message msg) ∧
    (strip_message msg = [] →
      send_model msg accepted =
        { written := [], enqueued := [], raised := some .emptyMessage }) ∧
    (strip_message msg ≠ [] → accepted = (strip_message msg ++ ['\n']).length →
      send_model msg accepted =
        { written := [strip_message msg ++ ['\n']],
          enqueued := [strip_message msg],
          raised := none }) ∧
    (strip_message msg ≠ [] → accepted ≠ (strip_message msg ++ ['\n']).length →
      send_model msg accepted =
        { written := [strip_message msg ++ ['\n']],
          enqueued := [],
          raised := some .shortWrite }) := by
  refine ⟨?_, ?_, ?_, ?_⟩
  · intro hmem
    have h1 : ('#' : Char) ∈ msg.takeWhile (fun c => c ≠ '#') := mem_py_strip hmem
    have h2 := List.mem_takeWhile_imp h1
    simp at h2
  · intro h0
    unfold send_model
    rw [if_pos h0]
  · intro h0 hacc
    unfold send_model
    rw [if_neg h0, if_pos hacc]
  · intro h0 hacc
    unfold send_model
    rw [if_neg h0, if_neg hacc]

/-- Witness for C5: `"boardsize 19 # set size"` strips to
`"boardsize 19"` and is written with a trailing newline (13 bytes). -/
theorem claim_C5_witness :
    ('#' ∉ strip_message (chars "boardsize 19 # set size")) ∧
    send_model (chars "boardsize 19 # set size") 13 =
      { written := [chars "boardsize 19" ++ ['\n']],
        enqueued := [chars "boardsize 19"],
        raised := none } :=
  ⟨(claim_C5 (chars "boardsize 19 # set size") 13).1,
   (claim_C5 (chars "boardsize 19 # set size") 13).2.2.1 (by decide) (by decide)⟩

/-- C6.  The extension decoder: the example line decodes to exactly two
records in order — the first with move `D4` `(3,3)`, 100 visits, winrate
`5500/10000 = 0.55`, prior `200/10000 = 0.02`, order 0 and principal
variation `[D4, C3]`; the second with move `Q16` `(15,15)`, 50 visits and
every other field absent.  In general each scaled field stores the
transmitted integer divided by 10000, and an unrecognized token makes the
record loop stop and return (no error), leaving the token unconsumed. -/
theorem claim_C6 :
    parse_lz_analyze_line
        (chars "info move D4 visits 100 winrate 5500 prior 200 order 0 pv D4 C3 info move Q16 visits 50")
      = some
        [ { move := some ⟨some 3, some 3⟩,
            visits := some 100,
            winrate := some (((5500 : Int) : ℚ) / 10000),
            prior := some (((200 : Int) : ℚ) / 10000),
            order := some 0,
            pv := some [⟨some 3, some 3⟩, ⟨some 2, some 2⟩] },
          { move := some ⟨some 15, some 15⟩,
            visits := some 50 } ] ∧
    ((5500 : Int) : ℚ) / 10000 = 0.55 ∧
    ((200 : Int) : ℚ) / 10000 = 0.02 ∧
    (∀ (f : Nat) (rest : List (List Char)) (acc : LzAnalyzeMoveInfo) (w : List Char) (n : Int),
      py_int w = some n →
      parse_info_loop (f + 1) (chars "winrate" :: w :: rest) acc
        = parse_info_loop f rest { acc with winrate := some ((n : ℚ) / 10000) }) ∧
    (∀ (f : Nat) (rest : List (List Char)) (acc : LzAnalyzeMoveInfo) (w : List Char) (n : Int),
      py_int w = some n →
      parse_info_loop (f + 1) (chars "prior" :: w :: rest) acc
        = parse_info_loop f rest { acc with prior := some ((n : ℚ) / 10000) }) ∧
    (∀ (f : Nat) (rest : List (List Char)) (acc : LzAnalyzeMoveInfo) (w : List Char) (n : Int),
      py_int w = some n →
      parse_info_loop (f + 1) (chars "lcb" :: w :: rest) acc
        = parse_info_loop f rest { acc with lcb := some ((n : ℚ) / 10000) }) ∧
    (∀ (f : Nat) (rest : List (List Char)) (acc : LzAnalyzeMoveInfo) (w : List Char),
      w ∉ [chars "move", chars "visits", chars "winrate", chars "prior",
           chars "lcb", chars "order", chars "pv"] →
      parse_info_loop (f + 1) (w :: rest) acc = some (w :: rest, acc)) := by
  refine ⟨by rfl, by norm_num, by norm_num, ?_, ?_, ?_, ?_⟩
  · intro f rest acc w n hw
    rw [show parse_info_loop (f + 1) (chars "winrate" :: w :: rest) acc
        = (match py_int w with
           | none => none
           | some n => parse_info_loop f rest { acc with winrate := some ((n : ℚ) / 10000) })
      from rfl, hw]
  · intro f rest acc w n hw
    rw [show parse_info_loop (f + 1) (chars "prior" :: w :: rest) acc
        = (match py_int w with
           | none => none
           | some n => parse_info_loop f rest { acc with prior := some ((n : ℚ) / 10000) })
      from rfl, hw]
  · intro f rest acc w n hw
    rw [show parse_info_loop (f + 1) (chars "lcb" :: w :: rest) acc
        = (match py_int w with
           | none => none
           | some n => parse_info_loop f rest { acc with lcb := some ((n : ℚ) / 10000) })
      from rfl, hw]
  · intro f rest acc w hw
    simp only [List.mem_cons, List.mem_singleton] at hw
    push_neg at hw
    obtain ⟨w1, w2, w3, w4, w5, w6, w7⟩ := hw
    simp only [parse_info_loop, if_neg w1, if_neg w2, if_neg w3, if_neg w4, if_neg w5,
      if_neg w6, if_neg w7.1]

/-- Witness for C6: the unknown-token rule at `"unknownkey"` and the
winrate scaling rule at the transmitted integer 5500. -/
theorem claim_C6_witness :
    parse_info_loop 1 [chars "unknownkey"] {} = some ([chars "unknownkey"], {}) ∧
    parse_info_loop 2 [chars "winrate", chars "5500"] {}
      = parse_info_loop 1 [] { winrate := some (((5500 : Int) : ℚ) / 10000) } :=
  ⟨claim_C6.2.2.2.2.2.2 0 [] {} (chars "unknownkey") (by decide),
   claim_C6.2.2.2.1 1 [] {} (chars "5500") 5500 rfl⟩

end GtpWrapper
